import Mathlib

/-!
The port-forwarding reconciliation loop of mcnforwarder

A shallow embedding of `main.go`: the container observer (`ListContainers`,
`InspectAll`), the tunnel supervisor (`Kill`, `Forward`) and the reconciliation
loop (`Poll`), followed by the properties of the specification that concern them.

Conventions of the embedding.

* Everything the program does to the outside world is appended to a trace of
  `Event`s; everything the outside world answers is read from a `World`, one per
  pass of the loop (and one for the baseline `Forward` before the loop).
* All methods of `MachineForwarder` have a value receiver.  A method therefore
  works on a copy of the receiver: `Forward` returns its copy, and the caller's
  value is what it was before the call.
* Go strings are `String`s; Go's `<` on strings (byte-wise) agrees with the
  lexicographic order of the code points on the UTF-8 strings that
  `json.Unmarshal` yields.
* Logging is not modelled.
-/

namespace Mcnforwarder

/-! ## Data model -/

/-- An element of a port's binding list: the anonymous struct with the fields
`HostIp, HostPort string`. -/
structure Binding where
  HostIp : String
  HostPort : String
deriving DecidableEq, Repr

/-- The anonymous struct `NetworkSettings` of `Container`.  The map `Ports` is
given as the list of its entries in the order in which a `range` loop visits them
(Go leaves that order unspecified, and it may differ from one loop to the next). -/
structure NetworkSettings where
  Ports : List (String × List Binding)
deriving DecidableEq, Repr

/-- The type `Container`. -/
structure Container where
  NetworkSettings : NetworkSettings
deriving DecidableEq, Repr

/-- An `*exec.Cmd` made by `exec.Command(name, arg...)`.  `serial` stands for the
identity of the allocation: two commands with equal arguments are still two
processes. -/
structure Cmd where
  serial : Nat
  name : String
  arg : List String
deriving DecidableEq, Repr

/-- The type `MachineForwarder`.  The three embedded interfaces are never set and
every method called through the struct is one of its own, so they carry no data. -/
structure MachineForwarder where
  VMName : String
  MachineBinary : String
  SSHCmd : Option Cmd
deriving DecidableEq, Repr

/-- The constructor `NewMachineForwarder`: `SSHCmd` is left at its zero value `nil`. -/
def NewMachineForwarder (name : String) : MachineForwarder :=
  { VMName := name, MachineBinary := "docker-machine", SSHCmd := none }

/-- What the program does to the outside world. -/
inductive Event where
  /-- A command run to completion: `exec.Command(name, arg...).Output()`. -/
  | output (name : String) (arg : List String)
  /-- Entry into `Forward(ports)`. -/
  | forward (ports : List String)
  /-- The call `cmd.Process.Kill()`; `ok` tells whether it returned no error. -/
  | kill (cmd : Cmd) (ok : Bool)
  /-- The statement `go cmd.Run()`: the process of `cmd` is launched. -/
  | run (cmd : Cmd)
  /-- The send `signalCh <- os.Interrupt`. -/
  | interrupt
  /-- The call `time.Sleep(100 * time.Millisecond)`. -/
  | sleep
deriving DecidableEq, Repr

/-- The output of `docker inspect`, given by what `json.Unmarshal` makes of it when
decoding into a `[]*Container`: an error, or the decoded slice, in which a JSON
`null` element is a nil pointer. -/
inductive Payload where
  | malformed (err : String)
  | containers (cs : List (Option Container))
deriving DecidableEq, Repr

/-- The answers of the outside world during one pass of the loop. -/
structure World where
  /-- Result of `Output()` for `docker ps -aq`: the bytes printed, or an error. -/
  ps : Except String String
  /-- Result of `Output()` for `docker inspect`: the bytes printed, or an error.
  `none` stands for a nil slice.  A successful `Output()` returns a slice that is not
  nil, also when nothing was printed (the empty slice then fails to decode), so the
  program meets `.ok (some _)` and `.error _` only; the worlds with `.ok none` are
  kept in the type and every statement over `World` covers them as well. -/
  inspect : Except String (Option Payload)
  /-- Result of `Process.Kill()`: `none` for success, or the error. -/
  kill : Option String

/-! ## ContainerObserver -/

/-- The white space of `unicode.IsSpace`, by code point. -/
def isSpace (c : Char) : Bool :=
  decide (c.toNat ∈ [0x09, 0x0A, 0x0B, 0x0C, 0x0D, 0x20, 0x85, 0xA0, 0x1680,
    0x2000, 0x2001, 0x2002, 0x2003, 0x2004, 0x2005, 0x2006, 0x2007, 0x2008, 0x2009, 0x200A,
    0x2028, 0x2029, 0x202F, 0x205F, 0x3000])

/-- The scan of `strings.Fields`: `cur` holds the characters of the field being read. -/
def fieldsAux : List Char → List Char → List String
  | [], cur => if cur = [] then [] else [String.mk cur]
  | c :: cs, cur =>
    if isSpace c then
      if cur = [] then fieldsAux cs [] else String.mk cur :: fieldsAux cs []
    else fieldsAux cs (cur ++ [c])

/-- The library function `strings.Fields`: the maximal runs of non-space characters. -/
def Fields (s : String) : List String :=
  fieldsAux s.data []

/-- The method `ListContainers`. -/
def ListContainers (fwder : MachineForwarder) (w : World) (tr : List Event) :
    Except String (List String) × List Event :=
  let tr := tr ++ [Event.output fwder.MachineBinary ["ssh", fwder.VMName, "docker", "ps", "-aq"]]
  match w.ps with
  | .error err => (.error err, tr)
  | .ok out => (.ok (Fields out), tr)

/-- The method `InspectAll`.  The result `.ok none` is the Go result `nil, nil`. -/
def InspectAll (fwder : MachineForwarder) (w : World) (tr : List Event) :
    Except String (Option Payload) × List Event :=
  match ListContainers fwder w tr with
  | (.error err, tr) => (.error err, tr)
  | (.ok ids, tr) =>
    if ids.length = 0 then (.ok none, tr)
    else
      let args := ["ssh", fwder.VMName, "docker", "inspect"] ++ ids
      let tr := tr ++ [Event.output fwder.MachineBinary args]
      match w.inspect with
      | .error err => (.error err, tr)
      | .ok out => (.ok out, tr)

/-! ## TunnelSupervisor -/

/-- The method `Kill`.  A held command is taken to have been started: the call
`fwder.SSHCmd.Process.Kill()` on a command whose `Process` is still nil is a run-time
panic, which is not modelled. -/
def Kill (fwder : MachineForwarder) (w : World) (tr : List Event) :
    Option String × List Event :=
  match fwder.SSHCmd with
  | none => (none, tr)
  | some cmd =>
    match w.kill with
    | some err => (some ("Killing existing SSH process failed: " ++ err), tr ++ [Event.kill cmd false])
    | none => (none, tr ++ [Event.kill cmd true])

/-- The argument list that `Forward` builds: the initial slice, to which the loop
over `ports` appends twice per port. -/
def forwardArgs (vmName : String) (ports : List String) : List String :=
  ports.foldl (fun args port => (args ++ ["-L"]) ++ [port ++ ":127.0.0.1:" ++ port])
    ["ssh", vmName, "-N", "-vvv", "-L", "2376:127.0.0.1:2376"]

/-- The method `Forward`.  The first component of the result is the callee's copy of
the receiver when the method returns; the second is the error (`none` for `nil`). -/
def Forward (fwder : MachineForwarder) (w : World) (ports : List String) (tr : List Event) :
    MachineForwarder × Option String × List Event :=
  let tr := tr ++ [Event.forward ports]
  let args := forwardArgs fwder.VMName ports
  match (if fwder.SSHCmd ≠ none then Kill fwder w tr else (none, tr)) with
  | (some err, tr) => (fwder, some err, tr)
  | (none, tr) =>
    let cmd : Cmd := { serial := tr.length, name := fwder.MachineBinary, arg := args }
    ({ fwder with SSHCmd := some cmd }, none, tr ++ [Event.run cmd])

/-! ## PortSetExtractor -/

/-- The body of the innermost loop of `Poll`: the test on `HostIp` and the `append`. -/
def appendIfLocal (newForwardedPorts : List String) (info : Binding) : List String :=
  if info.HostIp = "127.0.0.1" ∨ info.HostIp = "0.0.0.0" then
    newForwardedPorts ++ [info.HostPort]
  else newForwardedPorts

/-- The two inner loops of `Poll`, over the ports of one container and over the
bindings of each port. -/
def collectContainer (newForwardedPorts : List String) (c : Container) : List String :=
  c.NetworkSettings.Ports.foldl (fun acc port => port.2.foldl appendIfLocal acc) newForwardedPorts

/-- The outer loop of `Poll` over `containers`.  Reading `c.NetworkSettings` through
a nil `c` is a run-time panic: the result is then `none`. -/
def collectPorts : List (Option Container) → List String → Option (List String)
  | [], newForwardedPorts => some newForwardedPorts
  | none :: _, _ => none
  | some c :: cs, newForwardedPorts => collectPorts cs (collectContainer newForwardedPorts c)

/-- The order of Go's `<` and `==` on strings, as "not greater". -/
def stringLE (a b : String) : Prop := a.data ≤ b.data

instance : DecidableRel stringLE := fun a b => inferInstanceAs (Decidable (a.data ≤ b.data))

/-- The library call `sort.Sort(sort.StringSlice(x))`: the ascending rearrangement of
`x`.  The order on strings is total and antisymmetric, so there is exactly one such
rearrangement; it is computed here by insertion. -/
def sortStrings (x : List String) : List String :=
  x.insertionSort stringLE

/-- The candidate `newForwardedPorts` of one pass of the loop, from the decoded
`containers`: collected from the empty slice, then sorted (`none`: panic). -/
def newForwardedPorts (containers : List (Option Container)) : Option (List String) :=
  (collectPorts containers []).map sortStrings

/-! ## Reconciler -/

/-- The loop `for index, val := range forwardedPorts` of the comparison, started at
`index`, threading the flag `changed`. -/
def compareLoop (newForwardedPorts : List String) : Nat → List String → Bool → Bool
  | _, [], changed => changed
  | index, val :: rest, changed =>
    compareLoop newForwardedPorts (index + 1) rest
      (if newForwardedPorts[index]? ≠ some val then true else changed)

/-- The comparison of `Poll`: the `if` on the lengths with the loop in its `else`. -/
def detectChange (forwardedPorts newForwardedPorts : List String) (changed : Bool) : Bool :=
  if forwardedPorts.length ≠ newForwardedPorts.length then true
  else compareLoop newForwardedPorts 0 forwardedPorts changed

/-- The local variables of `Poll` at the head of the `for` loop, with the trace so far. -/
structure PollState where
  forwardedPorts : List String
  changed : Bool
  trace : List Event
deriving DecidableEq, Repr

/-- Where `Poll` stands after some passes of its loop. -/
inductive Outcome where
  /-- At the head of the `for` loop. -/
  | looping (s : PollState)
  /-- The method has returned. -/
  | returned (trace : List Event)
  /-- The goroutine has panicked on a nil pointer. -/
  | panicked (trace : List Event)
deriving DecidableEq, Repr

/-- The trace of an outcome. -/
def Outcome.trace : Outcome → List Event
  | .looping s => s.trace
  | .returned tr => tr
  | .panicked tr => tr

/-- One pass of the `for` loop of `Poll`. -/
def pollCycle (fwder : MachineForwarder) (w : World) (s : PollState) : Outcome :=
  match InspectAll fwder w s.trace with
  | (.error _, tr) => .returned (tr ++ [Event.interrupt])
  | (.ok none, tr) => .looping { s with trace := tr }
  | (.ok (some (.malformed _)), tr) => .returned (tr ++ [Event.interrupt])
  | (.ok (some (.containers containers)), tr) =>
    match newForwardedPorts containers with
    | none => .panicked tr
    | some newPorts =>
      if detectChange s.forwardedPorts newPorts s.changed then
        match Forward fwder w newPorts tr with
        | (_, some _, tr) => .returned (tr ++ [Event.interrupt])
        | (_, none, tr) =>
          .looping { forwardedPorts := newPorts, changed := false, trace := tr ++ [Event.sleep] }
      else
        .looping { forwardedPorts := s.forwardedPorts, changed := false,
                   trace := tr ++ [Event.sleep] }

/-- The `for` loop of `Poll`, run for as many passes as there are worlds (the loop
itself has no exit but `return`). -/
def pollLoop (fwder : MachineForwarder) : List World → PollState → Outcome
  | [], s => .looping s
  | w :: ws, s =>
    match pollCycle fwder w s with
    | .looping s' => pollLoop fwder ws s'
    | o => o

/-- The method `Poll`: `w0` answers the baseline `Forward`, `ws` the passes of the loop. -/
def Poll (fwder : MachineForwarder) (w0 : World) (ws : List World) : Outcome :=
  let forwardedPorts : List String := []
  let changed := true
  match Forward fwder w0 forwardedPorts [] with
  | (_, some _, tr) => .returned (tr ++ [Event.interrupt])
  | (_, none, tr) =>
    pollLoop fwder ws { forwardedPorts := forwardedPorts, changed := changed, trace := tr }

/-! ## Reading a trace -/

/-- The arguments of the calls of `Forward` in a trace, in order. -/
def forwardCalls (tr : List Event) : List (List String) :=
  tr.filterMap fun e => match e with
    | .forward ports => some ports
    | _ => none

/-- The number of stop signals sent in a trace. -/
def interrupts (tr : List Event) : Nat :=
  tr.count Event.interrupt

/-- The update of the live tunnel processes by one event: a launched process is added,
a process killed with success is removed. -/
def liveStep (procs : List Cmd) (e : Event) : List Cmd :=
  match e with
  | .run cmd => procs ++ [cmd]
  | .kill cmd true => procs.filter (fun p => p ≠ cmd)
  | _ => procs

/-- The tunnel processes that are live at the end of a trace: launched, and not
killed since. -/
def live (tr : List Event) : List Cmd :=
  tr.foldl liveStep []

/-- The events that an outcome adds to the trace of the state it was reached from. -/
def newEvents (s : PollState) (o : Outcome) : List Event :=
  o.trace.drop s.trace.length

/-! ## Vocabulary of the specification -/

/-- The test of `Poll` on the host interface of a binding. -/
def isLocal (info : Binding) : Prop :=
  info.HostIp = "127.0.0.1" ∨ info.HostIp = "0.0.0.0"

instance : DecidablePred isLocal := fun info =>
  inferInstanceAs (Decidable (info.HostIp = "127.0.0.1" ∨ info.HostIp = "0.0.0.0"))

/-- The admitted bindings of a decoded slice, in the order the loops visit them. -/
def admittedBindings (cs : List (Option Container)) : List Binding :=
  (cs.filterMap id).flatMap fun c =>
    c.NetworkSettings.Ports.flatMap fun port => port.2.filter (fun info => decide (isLocal info))

/-- The admitted host ports of a decoded slice, in the order the loops visit them. -/
def admittedPorts (cs : List (Option Container)) : List String :=
  (admittedBindings cs).map Binding.HostPort

/-- Two decoded slices that hold the same containers, the entries of each port map
being visited in a possibly different order. -/
def sameUpToMapOrder (cs cs' : List (Option Container)) : Prop :=
  List.Forall₂ (fun a b : Option Container =>
    (a = none ∧ b = none) ∨
    ∃ c d, a = some c ∧ b = some d ∧
      c.NetworkSettings.Ports.Perm d.NetworkSettings.Ports) cs cs'

instance : IsTotal String stringLE := ⟨fun a b => le_total a.data b.data⟩

instance : IsTrans String stringLE := ⟨fun _ _ _ h₁ h₂ => le_trans (α := List Char) h₁ h₂⟩

instance : IsAntisymm String stringLE :=
  ⟨fun _ _ h₁ h₂ => String.ext (le_antisymm (α := List Char) h₁ h₂)⟩

/-! ## Inputs and states used as examples -/

/-- A world in which `docker ps -aq` prints one id and `docker inspect` prints `cs`. -/
def worldOf (cs : List (Option Container)) : World :=
  { ps := .ok "4f2a\n", inspect := .ok (some (.containers cs)), kill := none }

/-- A world in which `docker ps -aq` prints nothing: there are no containers. -/
def worldEmpty : World :=
  { ps := .ok "", inspect := .ok none, kill := none }

/-- A world like `worldOf cs` in which killing a process fails. -/
def worldKillFails (cs : List (Option Container)) : World :=
  { ps := .ok "4f2a\n", inspect := .ok (some (.containers cs)), kill := some "no such process" }

/-- A world in which the listing command fails. -/
def worldPsFails : World :=
  { ps := .error "exit status 1", inspect := .ok none, kill := none }

/-- A world in which the listing succeeds and the inspect command fails. -/
def worldInspectFails : World :=
  { ps := .ok "4f2a\n", inspect := .error "exit status 1", kill := none }

/-- A container that publishes host port 8080 on the wildcard interface. -/
def scenarioB : List (Option Container) :=
  [some { NetworkSettings := { Ports :=
    [("80/tcp", [{ HostIp := "0.0.0.0", HostPort := "8080" }])] } }]

/-- A container with two bindings, one on another interface and one on loopback. -/
def scenarioD : List (Option Container) :=
  [some { NetworkSettings := { Ports :=
    [("4000/tcp", [{ HostIp := "10.0.0.5", HostPort := "4000" }]),
     ("3000/tcp", [{ HostIp := "127.0.0.1", HostPort := "3000" }])] } }]

/-- A container that publishes host port 8080 on the wildcard and on loopback. -/
def twice8080 : List (Option Container) :=
  [some { NetworkSettings := { Ports :=
    [("80/tcp", [{ HostIp := "0.0.0.0", HostPort := "8080" },
                 { HostIp := "127.0.0.1", HostPort := "8080" }])] } }]

/-- A container that publishes the host ports 9090, 8080 and 10 on local interfaces. -/
def threePorts : List (Option Container) :=
  [some { NetworkSettings := { Ports :=
    [("90/tcp", [{ HostIp := "0.0.0.0", HostPort := "9090" }]),
     ("80/tcp", [{ HostIp := "127.0.0.1", HostPort := "8080" },
                 { HostIp := "0.0.0.0", HostPort := "10" }])] } }]

/-- A container whose only binding is on an interface other than loopback or wildcard. -/
def noLocalPorts : List (Option Container) :=
  [some { NetworkSettings := { Ports :=
    [("4000/tcp", [{ HostIp := "10.0.0.5", HostPort := "4000" }])] } }]

/-- A container with two port map entries, 9090 and 8080, visited in that order. -/
def twoPorts : List (Option Container) :=
  [some { NetworkSettings := { Ports :=
    [("90/tcp", [{ HostIp := "0.0.0.0", HostPort := "9090" }]),
     ("80/tcp", [{ HostIp := "127.0.0.1", HostPort := "8080" }])] } }]

/-- The container of `twoPorts` with its port map visited in the other order. -/
def twoPortsReordered : List (Option Container) :=
  [some { NetworkSettings := { Ports :=
    [("80/tcp", [{ HostIp := "127.0.0.1", HostPort := "8080" }]),
     ("90/tcp", [{ HostIp := "0.0.0.0", HostPort := "9090" }])] } }]

/-- A forwarder that holds a process, as a caller other than `main` could build it. -/
def fwderHolding : MachineForwarder :=
  { VMName := "vm", MachineBinary := "docker-machine",
    SSHCmd := some { serial := 0, name := "docker-machine", arg := ["ssh", "vm", "-N"] } }

/-- The first tunnel process that `Poll` launches for the VM `vm`. -/
def tunnelBaseline : Cmd :=
  { serial := 1, name := "docker-machine",
    arg := ["ssh", "vm", "-N", "-vvv", "-L", "2376:127.0.0.1:2376"] }

/-- The tunnel process that `Poll` launches for the VM `vm` once 8080 is published. -/
def tunnel8080 : Cmd :=
  { serial := 5, name := "docker-machine",
    arg := ["ssh", "vm", "-N", "-vvv", "-L", "2376:127.0.0.1:2376",
            "-L", "8080:127.0.0.1:8080"] }

/-- The state of `Poll` at the head of the loop before the first pass, for the VM `vm`. -/
def stateBaseline : PollState :=
  { forwardedPorts := [], changed := true,
    trace := [Event.forward [],
      Event.run { serial := 1, name := "docker-machine",
                  arg := ["ssh", "vm", "-N", "-vvv", "-L", "2376:127.0.0.1:2376"] }] }

/-- The state of `Poll` at the head of the loop after a pass that forwarded 8080. -/
def stateAfter8080 : PollState :=
  { forwardedPorts := ["8080"], changed := false,
    trace := (Poll (NewMachineForwarder "vm") worldEmpty [worldOf scenarioB]).trace }

/-- The state of `Poll` after the pass from the baseline that read `twoPorts`. -/
def stateAfterTwoPorts : PollState :=
  { forwardedPorts := ["8080", "9090"], changed := false,
    trace := (pollCycle (NewMachineForwarder "vm") (worldOf twoPorts) stateBaseline).trace }

/-- The state of `Poll` after a pass from the baseline that found no container: the
truth and the flag of the baseline, and one more listing in the trace. -/
def stateAfterEmptyPass : PollState :=
  { forwardedPorts := [], changed := true,
    trace := stateBaseline.trace ++
      [Event.output "docker-machine" ["ssh", "vm", "docker", "ps", "-aq"]] }

/-- The state of `Poll` after the pass that forwarded 8080 and a further pass that
found no container. -/
def stateAfter8080Empty : PollState :=
  { forwardedPorts := ["8080"], changed := false,
    trace := stateAfter8080.trace ++
      [Event.output "docker-machine" ["ssh", "vm", "docker", "ps", "-aq"]] }

/-! ## Lemmas on the extractor -/

theorem foldl_appendIfLocal (bs : List Binding) (acc : List String) :
    bs.foldl appendIfLocal acc
      = acc ++ (bs.filter (fun info => decide (isLocal info))).map Binding.HostPort := by
  induction bs generalizing acc with
  | nil => simp
  | cons b bs ih =>
    rw [List.foldl_cons, ih]
    by_cases h : isLocal b
    · have h' : b.HostIp = "127.0.0.1" ∨ b.HostIp = "0.0.0.0" := h
      simp [appendIfLocal, h, h']
    · have h' : ¬ (b.HostIp = "127.0.0.1" ∨ b.HostIp = "0.0.0.0") := h
      simp [appendIfLocal, h, h']

theorem foldl_ports (ps : List (String × List Binding)) (acc : List String) :
    ps.foldl (fun acc port => port.2.foldl appendIfLocal acc) acc
      = acc ++ (ps.flatMap fun port =>
          port.2.filter (fun info => decide (isLocal info))).map Binding.HostPort := by
  induction ps generalizing acc with
  | nil => simp
  | cons p ps ih =>
    rw [List.foldl_cons, ih, foldl_appendIfLocal]
    simp

theorem collectPorts_eq (cs : List (Option Container)) (acc : List String) :
    collectPorts cs acc = if none ∈ cs then none else some (acc ++ admittedPorts cs) := by
  induction cs generalizing acc with
  | nil => simp [collectPorts, admittedPorts, admittedBindings]
  | cons c cs ih =>
    cases c with
    | none => simp [collectPorts]
    | some c =>
      rw [collectPorts, ih, collectContainer, foldl_ports]
      by_cases h : none ∈ cs
      · simp [h]
      · simp [h, admittedPorts, admittedBindings]

theorem newForwardedPorts_eq (cs : List (Option Container)) :
    newForwardedPorts cs = if none ∈ cs then none else some (sortStrings (admittedPorts cs)) := by
  unfold newForwardedPorts
  rw [collectPorts_eq]
  by_cases h : none ∈ cs <;> simp [h]

theorem newForwardedPorts_some {cs : List (Option Container)} {cand : List String}
    (h : newForwardedPorts cs = some cand) :
    none ∉ cs ∧ cand = sortStrings (admittedPorts cs) := by
  rw [newForwardedPorts_eq] at h
  by_cases hn : none ∈ cs
  · simp [hn] at h
  · simp only [hn, if_false, Option.some.injEq] at h
    exact ⟨hn, h.symm⟩

theorem stringLE_iff_le (a b : String) : stringLE a b ↔ a ≤ b :=
  String.le_iff_toList_le.symm

theorem sortStrings_sorted (x : List String) : (sortStrings x).Sorted stringLE :=
  List.sorted_insertionSort stringLE x

theorem sortStrings_perm (x : List String) : (sortStrings x).Perm x :=
  List.perm_insertionSort stringLE x

theorem sortStrings_eq_of_perm {x y : List String} (h : x.Perm y) :
    sortStrings x = sortStrings y :=
  List.eq_of_perm_of_sorted (r := stringLE)
    ((sortStrings_perm x).trans (h.trans (sortStrings_perm y).symm))
    (sortStrings_sorted x) (sortStrings_sorted y)

theorem sortStrings_eq_self {x : List String} (h : x.Sorted stringLE) : sortStrings x = x :=
  List.Sorted.insertionSort_eq h

theorem mem_admittedPorts (cs : List (Option Container)) (p : String) :
    p ∈ admittedPorts cs ↔
      ∃ c, some c ∈ cs ∧ ∃ port ∈ c.NetworkSettings.Ports, ∃ info ∈ port.2,
        info.HostPort = p ∧ (info.HostIp = "127.0.0.1" ∨ info.HostIp = "0.0.0.0") := by
  simp only [admittedPorts, admittedBindings, List.mem_map, List.mem_flatMap, List.mem_filterMap,
    List.mem_filter, decide_eq_true_eq, id, isLocal]
  constructor
  · rintro ⟨info, ⟨c, ⟨_, hc, rfl⟩, port, hport, hinfo, hloc⟩, rfl⟩
    exact ⟨c, hc, port, hport, info, hinfo, rfl, hloc⟩
  · rintro ⟨c, hc, port, hport, info, hinfo, rfl, hloc⟩
    exact ⟨info, ⟨c, ⟨_, hc, rfl⟩, port, hport, hinfo, hloc⟩, rfl⟩

theorem admittedPorts_cons_none (cs : List (Option Container)) :
    admittedPorts (none :: cs) = admittedPorts cs := by
  simp [admittedPorts, admittedBindings]

theorem admittedPorts_cons_some (c : Container) (cs : List (Option Container)) :
    admittedPorts (some c :: cs) =
      (c.NetworkSettings.Ports.flatMap fun port =>
        port.2.filter (fun info => decide (isLocal info))).map Binding.HostPort
        ++ admittedPorts cs := by
  simp [admittedPorts, admittedBindings]

theorem admittedPorts_perm_of_reordered {cs cs' : List (Option Container)}
    (h : sameUpToMapOrder cs cs') : (admittedPorts cs').Perm (admittedPorts cs) := by
  unfold sameUpToMapOrder at h
  induction h with
  | nil => exact List.Perm.refl _
  | @cons a b l l' hab _ ih =>
    rcases hab with ⟨rfl, rfl⟩ | ⟨c, d, rfl, rfl, hp⟩
    · rw [admittedPorts_cons_none, admittedPorts_cons_none]; exact ih
    · rw [admittedPorts_cons_some, admittedPorts_cons_some]
      exact List.Perm.append (List.Perm.map _ (List.Perm.flatMap_right _ hp.symm)) ih

theorem none_mem_of_reordered {cs cs' : List (Option Container)}
    (h : sameUpToMapOrder cs cs') (hn : none ∈ cs') : none ∈ cs := by
  unfold sameUpToMapOrder at h
  induction h with
  | nil => exact hn
  | @cons a b l l' hab _ ih =>
    rcases List.mem_cons.mp hn with hb | hl
    · rcases hab with ⟨rfl, _⟩ | ⟨c, d, _, hd, _⟩
      · exact List.mem_cons_self _ _
      · rw [hd] at hb; cases hb
    · exact List.mem_cons_of_mem _ (ih hl)

/-- Reading the same containers with the port maps visited in another order
rearranges the collected host ports. -/
theorem collectPorts_perm_of_reordered {cs cs' : List (Option Container)} {raw : List String}
    (h : sameUpToMapOrder cs cs') (hraw : collectPorts cs [] = some raw) :
    ∃ raw', collectPorts cs' [] = some raw' ∧ raw'.Perm raw := by
  have hn : none ∉ cs := by
    intro hn
    rw [collectPorts_eq] at hraw
    simp [hn] at hraw
  have hn' : none ∉ cs' := fun hn' => hn (none_mem_of_reordered h hn')
  rw [collectPorts_eq, if_neg hn, List.nil_append] at hraw
  cases hraw
  exact ⟨admittedPorts cs', by rw [collectPorts_eq, if_neg hn', List.nil_append],
    admittedPorts_perm_of_reordered h⟩

theorem twoPorts_reordered : sameUpToMapOrder twoPorts twoPortsReordered :=
  List.Forall₂.cons (Or.inr ⟨_, _, rfl, rfl, List.Perm.swap _ _ []⟩) List.Forall₂.nil

theorem forwardArgs_foldl (init ports : List String) :
    ports.foldl (fun args port => (args ++ ["-L"]) ++ [port ++ ":127.0.0.1:" ++ port]) init
      = init ++ ports.flatMap (fun p => ["-L", p ++ ":127.0.0.1:" ++ p]) := by
  induction ports generalizing init with
  | nil => simp
  | cons p ports ih => rw [List.foldl_cons, ih]; simp

/-! ## Lemmas on the comparison -/

theorem compareLoop_true (new : List String) (i : Nat) (old : List String) :
    compareLoop new i old true = true := by
  induction old generalizing i with
  | nil => rfl
  | cons val rest ih => simp [compareLoop, ih]

theorem compareLoop_shift (pre new : List String) (i : Nat) (old : List String) (ch : Bool) :
    compareLoop (pre ++ new) (pre.length + i) old ch = compareLoop new i old ch := by
  induction old generalizing i ch with
  | nil => rfl
  | cons val rest ih =>
    simp only [compareLoop]
    rw [Nat.add_assoc, ih]
    have : (pre ++ new)[pre.length + i]? = new[i]? := by
      rw [List.getElem?_append_right (Nat.le_add_right _ _)]
      simp
    rw [this]

theorem compareLoop_eq (new old : List String) (ch : Bool) (h : old.length = new.length) :
    compareLoop new 0 old ch = (ch || decide (old ≠ new)) := by
  induction old generalizing new ch with
  | nil =>
    cases new with
    | nil => simp [compareLoop]
    | cons n new => simp at h
  | cons val rest ih =>
    cases new with
    | nil => simp at h
    | cons n new =>
      simp only [List.length_cons, Nat.add_right_cancel_iff] at h
      simp only [compareLoop]
      have := compareLoop_shift [n] new 0 rest (if (n :: new)[0]? ≠ some val then true else ch)
      simp only [List.length_singleton, Nat.add_zero, List.singleton_append] at this
      rw [Nat.zero_add, this, ih new _ h]
      by_cases hv : n = val
      · subst hv; simp
      · have hv' : ¬ val = n := fun e => hv e.symm
        simp [hv, hv']

theorem detectChange_eq (old new : List String) (ch : Bool) :
    detectChange old new ch = (ch || decide (old ≠ new)) := by
  unfold detectChange
  by_cases h : old.length = new.length
  · simp only [h, ne_eq, not_true_eq_false, if_false]
    exact compareLoop_eq new old ch h
  · have hne : old ≠ new := fun e => h (by rw [e])
    simp [h, hne]

theorem ne_of_differs {old new : List String}
    (h : old.length ≠ new.length ∨ ∃ i, i < old.length ∧ new[i]? ≠ old[i]?) : old ≠ new := by
  rintro rfl
  rcases h with h | ⟨i, _, h⟩
  · exact h rfl
  · exact h rfl

/-! ## Lemmas on traces -/

theorem forwardCalls_append (a b : List Event) :
    forwardCalls (a ++ b) = forwardCalls a ++ forwardCalls b := by
  simp [forwardCalls]

theorem forwardCalls_forward_cons (ports : List String) (l : List Event) :
    forwardCalls (Event.forward ports :: l) = ports :: forwardCalls l := rfl

theorem forwardCalls_sleep : forwardCalls [Event.sleep] = [] := rfl

theorem forwardCalls_interrupt : forwardCalls [Event.interrupt] = [] := rfl

theorem interrupts_append (a b : List Event) :
    interrupts (a ++ b) = interrupts a + interrupts b := by
  simp [interrupts]

theorem interrupts_forward_cons (ports : List String) (l : List Event) :
    interrupts (Event.forward ports :: l) = interrupts l := by
  simp [interrupts]

theorem interrupts_sleep : interrupts [Event.sleep] = 0 := by decide

theorem interrupts_interrupt : interrupts [Event.interrupt] = 1 := by decide

theorem live_append (a b : List Event) : live (a ++ b) = b.foldl liveStep (live a) := by
  unfold live
  rw [List.foldl_append]

theorem newEvents_append (s : PollState) (o : Outcome) (evs : List Event)
    (h : o.trace = s.trace ++ evs) : newEvents s o = evs := by
  simp [newEvents, h]

/-- The events of `ListContainers` and `InspectAll`: one command, or two. -/
theorem InspectAll_trace (fwder : MachineForwarder) (w : World) (tr : List Event) :
    ∃ evs, (InspectAll fwder w tr).2 = tr ++ evs ∧ forwardCalls evs = [] ∧ interrupts evs = 0 ∧
      ∀ c ok, Event.kill c ok ∉ evs := by
  unfold InspectAll ListContainers
  cases hps : w.ps with
  | error e =>
    exact ⟨[Event.output fwder.MachineBinary ["ssh", fwder.VMName, "docker", "ps", "-aq"]],
      rfl, rfl, by simp [interrupts], by simp⟩
  | ok out =>
    by_cases hids : (Fields out).length = 0
    · simp only [hids, if_true]
      exact ⟨[Event.output fwder.MachineBinary ["ssh", fwder.VMName, "docker", "ps", "-aq"]],
        rfl, rfl, by simp [interrupts], by simp⟩
    · simp only [hids, if_false]
      refine ⟨[Event.output fwder.MachineBinary ["ssh", fwder.VMName, "docker", "ps", "-aq"],
        Event.output fwder.MachineBinary (["ssh", fwder.VMName, "docker", "inspect"] ++ Fields out)],
        ?_, rfl, by simp [interrupts], by simp⟩
      cases hin : w.inspect <;> simp

/-- A pass in which the listing finds no container. -/
theorem InspectAll_zero (fwder : MachineForwarder) (w : World) (tr : List Event) (out : String)
    (hps : w.ps = .ok out) (hids : Fields out = []) :
    InspectAll fwder w tr = (.ok none, tr ++
      [Event.output fwder.MachineBinary ["ssh", fwder.VMName, "docker", "ps", "-aq"]]) := by
  unfold InspectAll ListContainers
  rw [hps]
  simp [hids]

/-- The events of `Forward`: the entry, then a kill, a launch, or both. -/
theorem Forward_trace (fwder : MachineForwarder) (w : World) (ports : List String)
    (tr : List Event) :
    ∃ evs, (Forward fwder w ports tr).2.2 = tr ++ Event.forward ports :: evs ∧
      forwardCalls evs = [] ∧ interrupts evs = 0 := by
  unfold Forward Kill
  cases hc : fwder.SSHCmd with
  | none =>
    exact ⟨[Event.run { serial := tr.length + 1, name := fwder.MachineBinary,
                        arg := forwardArgs fwder.VMName ports }],
      by simp, rfl, by simp [interrupts]⟩
  | some cmd =>
    cases hk : w.kill with
    | none =>
      exact ⟨[Event.kill cmd true,
        Event.run { serial := tr.length + 2, name := fwder.MachineBinary,
                    arg := forwardArgs fwder.VMName ports }],
        by simp, rfl, by simp [interrupts]⟩
    | some e => exact ⟨[Event.kill cmd false], by simp, rfl, by simp [interrupts]⟩

/-- A forwarder whose `SSHCmd` is nil kills nothing and `Forward` returns no error. -/
theorem Forward_of_nil (fwder : MachineForwarder) (w : World) (ports : List String)
    (tr : List Event) (h : fwder.SSHCmd = none) :
    (Forward fwder w ports tr).2 =
      (none, tr ++ [Event.forward ports,
        Event.run { serial := tr.length + 1, name := fwder.MachineBinary,
                    arg := forwardArgs fwder.VMName ports }]) := by
  simp [Forward, h]

/-! ## Lemmas on the passes of the loop -/

/-- A pass that gets a decoded payload and a candidate: the comparison and what follows. -/
theorem pollCycle_candidate (fwder : MachineForwarder) (w : World) (s : PollState)
    (cs : List (Option Container)) (cand : List String)
    (hins : (InspectAll fwder w s.trace).1 = .ok (some (.containers cs)))
    (hcand : newForwardedPorts cs = some cand) :
    pollCycle fwder w s =
      if (s.changed || decide (s.forwardedPorts ≠ cand)) = true then
        match (Forward fwder w cand (InspectAll fwder w s.trace).2).2 with
        | (some _, tr) => .returned (tr ++ [Event.interrupt])
        | (none, tr) =>
          .looping { forwardedPorts := cand, changed := false, trace := tr ++ [Event.sleep] }
      else
        .looping { forwardedPorts := s.forwardedPorts, changed := false,
                   trace := (InspectAll fwder w s.trace).2 ++ [Event.sleep] } := by
  rcases hI : InspectAll fwder w s.trace with ⟨r, tr⟩
  rw [hI] at hins
  simp only at hins
  subst hins
  unfold pollCycle
  rw [hI]
  simp only [hcand, detectChange_eq]
  split
  · rcases hF : Forward fwder w cand tr with ⟨f, e, tr2⟩
    cases e <;> rfl
  · rfl

/-- A pass in which `InspectAll` fails. -/
theorem pollCycle_error (fwder : MachineForwarder) (w : World) (s : PollState) (err : String)
    (hins : (InspectAll fwder w s.trace).1 = .error err) :
    pollCycle fwder w s = .returned ((InspectAll fwder w s.trace).2 ++ [Event.interrupt]) := by
  rcases hI : InspectAll fwder w s.trace with ⟨r, tr⟩
  rw [hI] at hins
  simp only at hins
  subst hins
  unfold pollCycle
  rw [hI]

/-- A pass in which `InspectAll` returns `nil, nil`. -/
theorem pollCycle_nil (fwder : MachineForwarder) (w : World) (s : PollState)
    (hins : (InspectAll fwder w s.trace).1 = .ok none) :
    pollCycle fwder w s = .looping { s with trace := (InspectAll fwder w s.trace).2 } := by
  rcases hI : InspectAll fwder w s.trace with ⟨r, tr⟩
  rw [hI] at hins
  simp only at hins
  subst hins
  unfold pollCycle
  rw [hI]

/-- The events of a pass in which `InspectAll` returns `nil, nil`. -/
theorem pollCycle_nil_events (fwder : MachineForwarder) (w : World) (s : PollState)
    (hins : (InspectAll fwder w s.trace).1 = .ok none) :
    forwardCalls (newEvents s (pollCycle fwder w s)) = [] ∧
    interrupts (newEvents s (pollCycle fwder w s)) = 0 ∧
    Event.sleep ∉ newEvents s (pollCycle fwder w s) := by
  have hc := pollCycle_nil fwder w s hins
  rcases hI : InspectAll fwder w s.trace with ⟨r, tr⟩
  rw [hI] at hins
  simp only at hins
  subst hins
  have hI2 := hI
  unfold InspectAll ListContainers at hI2
  cases hps : w.ps with
  | error e => rw [hps] at hI2; simp at hI2
  | ok out =>
    rw [hps] at hI2
    by_cases hids : (Fields out).length = 0
    · simp only [hids, if_true, Prod.mk.injEq, true_and] at hI2
      have hnew : newEvents s (pollCycle fwder w s) =
          [Event.output fwder.MachineBinary ["ssh", fwder.VMName, "docker", "ps", "-aq"]] :=
        newEvents_append s _ _ (by rw [hc, hI, Outcome.trace]; exact hI2.symm)
      rw [hnew]
      exact ⟨rfl, by simp [interrupts], by simp⟩
    · simp only [hids, if_false] at hI2
      cases hin : w.inspect with
      | error e => rw [hin] at hI2; simp at hI2
      | ok p =>
        rw [hin] at hI2
        simp only [Prod.mk.injEq, Except.ok.injEq] at hI2
        have hnew : newEvents s (pollCycle fwder w s) =
            [Event.output fwder.MachineBinary ["ssh", fwder.VMName, "docker", "ps", "-aq"],
             Event.output fwder.MachineBinary
               (["ssh", fwder.VMName, "docker", "inspect"] ++ Fields out)] :=
          newEvents_append s _ _ (by
            rw [hc, hI, Outcome.trace]
            simp only
            rw [← hI2.2]
            simp)
        rw [hnew]
        exact ⟨rfl, by simp [interrupts], by simp⟩

/-- The trace of a pass that gets a decoded payload and finds a change. -/
theorem pollCycle_changed_trace (fwder : MachineForwarder) (w : World) (s : PollState)
    (cs : List (Option Container)) (cand : List String)
    (hins : (InspectAll fwder w s.trace).1 = .ok (some (.containers cs)))
    (hcand : newForwardedPorts cs = some cand)
    (hch : (s.changed || decide (s.forwardedPorts ≠ cand)) = true) :
    ∃ evs, (pollCycle fwder w s).trace = s.trace ++ evs ∧ forwardCalls evs = [cand] ∧
      (((Forward fwder w cand (InspectAll fwder w s.trace).2).2.1 = none ∧
          interrupts evs = 0 ∧
          pollCycle fwder w s = .looping
            { forwardedPorts := cand, changed := false, trace := s.trace ++ evs }) ∨
       ((Forward fwder w cand (InspectAll fwder w s.trace).2).2.1 ≠ none ∧
          interrupts evs = 1 ∧ evs.getLast? = some Event.interrupt ∧
          pollCycle fwder w s = .returned (s.trace ++ evs))) := by
  rw [pollCycle_candidate fwder w s cs cand hins hcand, if_pos hch]
  obtain ⟨e1, h1, hf1, hi1, _⟩ := InspectAll_trace fwder w s.trace
  obtain ⟨e2, h2, hf2, hi2⟩ := Forward_trace fwder w cand (InspectAll fwder w s.trace).2
  rcases hF : Forward fwder w cand (InspectAll fwder w s.trace).2 with ⟨f, e, tr2⟩
  rw [hF] at h2
  simp only at h2
  subst h2
  cases e with
  | none =>
    refine ⟨e1 ++ Event.forward cand :: e2 ++ [Event.sleep], ?_, ?_, Or.inl ⟨rfl, ?_, ?_⟩⟩
    · simp [Outcome.trace, h1]
    · simp only [forwardCalls_append, forwardCalls_forward_cons, hf1, hf2, forwardCalls_sleep,
        List.nil_append, List.append_nil]
    · simp only [interrupts_append, interrupts_forward_cons, hi1, hi2, interrupts_sleep]
    · simp [h1]
  | some err =>
    refine ⟨e1 ++ Event.forward cand :: e2 ++ [Event.interrupt], ?_, ?_,
      Or.inr ⟨by simp, ?_, ?_, ?_⟩⟩
    · simp [Outcome.trace, h1]
    · simp only [forwardCalls_append, forwardCalls_forward_cons, hf1, hf2,
        forwardCalls_interrupt, List.nil_append, List.append_nil]
    · simp only [interrupts_append, interrupts_forward_cons, hi1, hi2, interrupts_interrupt]
    · exact List.getLast?_concat _
    · simp [h1]

/-- A pass that gets a decoded payload whose candidate is the current truth, entered
with the flag cleared: nothing is forwarded. -/
theorem pollCycle_unchanged (fwder : MachineForwarder) (w : World) (s : PollState)
    (cs : List (Option Container))
    (hins : (InspectAll fwder w s.trace).1 = .ok (some (.containers cs)))
    (hcand : newForwardedPorts cs = some s.forwardedPorts) (hflag : s.changed = false) :
    forwardCalls (newEvents s (pollCycle fwder w s)) = [] ∧
    interrupts (newEvents s (pollCycle fwder w s)) = 0 ∧
    ∃ tr, pollCycle fwder w s
      = .looping { forwardedPorts := s.forwardedPorts, changed := false, trace := tr } := by
  have hc := pollCycle_candidate fwder w s cs s.forwardedPorts hins hcand
  have hno : ¬ (s.changed || decide (s.forwardedPorts ≠ s.forwardedPorts)) = true := by
    simp [hflag]
  rw [if_neg hno] at hc
  obtain ⟨e1, h1, hf1, hi1, _⟩ := InspectAll_trace fwder w s.trace
  have hnew : newEvents s (pollCycle fwder w s) = e1 ++ [Event.sleep] :=
    newEvents_append s _ _ (by rw [hc, Outcome.trace, h1, List.append_assoc])
  refine ⟨?_, ?_, _, hc⟩
  · rw [hnew, forwardCalls_append, hf1, forwardCalls_sleep]; rfl
  · rw [hnew, interrupts_append, hi1, interrupts_sleep]

/-- A pass that gets a decoded payload and comes back to the head of the loop has
the candidate as the current truth and the flag cleared. -/
theorem pollCycle_payload_looping (fwder : MachineForwarder) (w : World) (s s' : PollState)
    (cs : List (Option Container))
    (hins : (InspectAll fwder w s.trace).1 = .ok (some (.containers cs)))
    (h : pollCycle fwder w s = .looping s') :
    newForwardedPorts cs = some s'.forwardedPorts ∧ s'.changed = false := by
  cases hcand : newForwardedPorts cs with
  | none =>
    rcases hI : InspectAll fwder w s.trace with ⟨r, tr⟩
    rw [hI] at hins
    simp only at hins
    subst hins
    unfold pollCycle at h
    rw [hI] at h
    simp only [hcand] at h
    cases h
  | some cand =>
    rw [pollCycle_candidate fwder w s cs cand hins hcand] at h
    split at h
    · split at h
      · cases h
      · cases h; exact ⟨rfl, rfl⟩
    · rename_i hno
      cases h
      simp only [Bool.or_eq_true, decide_eq_true_eq, not_or, ne_eq, not_not] at hno
      exact ⟨by rw [hno.2], rfl⟩

/-- A pass that comes back to the head of the loop either kept the current truth or
replaced it by a candidate. -/
theorem pollCycle_looping (fwder : MachineForwarder) (w : World) (s s' : PollState)
    (h : pollCycle fwder w s = .looping s') :
    (s'.forwardedPorts = s.forwardedPorts ∧ s'.changed = s.changed) ∨
    (s'.changed = false ∧ ∃ cs, newForwardedPorts cs = some s'.forwardedPorts) ∨
    (s'.changed = false ∧ s'.forwardedPorts = s.forwardedPorts) := by
  unfold pollCycle at h
  split at h
  · cases h
  · cases h; exact Or.inl ⟨rfl, rfl⟩
  · cases h
  · rename_i cs tr _
    split at h
    · cases h
    · rename_i newPorts hnew
      split at h
      · split at h
        · cases h
        · cases h; exact Or.inr (Or.inl ⟨rfl, cs, hnew⟩)
      · cases h; exact Or.inr (Or.inr ⟨rfl, rfl⟩)

/-- The trace of a pass, by the way the pass ends. -/
theorem pollCycle_shape (fwder : MachineForwarder) (w : World) (s : PollState) :
    (pollCycle fwder w s).trace = (InspectAll fwder w s.trace).2 ∨
    (pollCycle fwder w s).trace = (InspectAll fwder w s.trace).2 ++ [Event.interrupt] ∨
    (pollCycle fwder w s).trace = (InspectAll fwder w s.trace).2 ++ [Event.sleep] ∨
    ∃ cand, (pollCycle fwder w s).trace =
        (Forward fwder w cand (InspectAll fwder w s.trace).2).2.2 ++ [Event.interrupt] ∨
      (pollCycle fwder w s).trace =
        (Forward fwder w cand (InspectAll fwder w s.trace).2).2.2 ++ [Event.sleep] := by
  rcases hI : InspectAll fwder w s.trace with ⟨r, tr⟩
  unfold pollCycle
  rw [hI]
  rcases r with e | (_ | (m | cs))
  · exact Or.inr (Or.inl rfl)
  · exact Or.inl rfl
  · exact Or.inr (Or.inl rfl)
  · simp only
    cases newForwardedPorts cs with
    | none => exact Or.inl rfl
    | some cand =>
      simp only
      split
      · refine Or.inr (Or.inr (Or.inr ⟨cand, ?_⟩))
        rcases Forward fwder w cand tr with ⟨f, e, tr2⟩
        cases e
        · exact Or.inr rfl
        · exact Or.inl rfl
      · exact Or.inr (Or.inr (Or.inl rfl))

/-- Once a pass has not come back to the head of the loop, no further pass is made. -/
theorem pollLoop_stop (fwder : MachineForwarder) (w : World) (ws : List World) (s : PollState)
    (h : ∀ s', pollCycle fwder w s ≠ .looping s') :
    pollLoop fwder (w :: ws) s = pollCycle fwder w s := by
  unfold pollLoop
  cases hc : pollCycle fwder w s with
  | looping s' => exact absurd hc (h s')
  | returned tr => rfl
  | panicked tr => rfl

theorem pollLoop_zero (fwder : MachineForwarder) (ws : List World) (s : PollState)
    (h : ∀ w ∈ ws, ∃ out, w.ps = .ok out ∧ Fields out = []) :
    ∃ tr, pollLoop fwder ws s
        = .looping { forwardedPorts := s.forwardedPorts, changed := s.changed, trace := tr } ∧
      forwardCalls tr = forwardCalls s.trace := by
  induction ws generalizing s with
  | nil => exact ⟨s.trace, rfl, rfl⟩
  | cons w ws ih =>
    obtain ⟨out, hps, hids⟩ := h w (List.mem_cons_self _ _)
    have hI := InspectAll_zero fwder w s.trace out hps hids
    have hc := pollCycle_nil fwder w s (by rw [hI])
    rw [hI] at hc
    unfold pollLoop
    rw [hc]
    obtain ⟨tr, h1, h2⟩ := ih { s with trace := s.trace ++
      [Event.output fwder.MachineBinary ["ssh", fwder.VMName, "docker", "ps", "-aq"]] }
      (fun w' hw' => h w' (List.mem_cons_of_mem _ hw'))
    refine ⟨tr, h1, ?_⟩
    rw [h2, forwardCalls_append]
    simp [forwardCalls]

theorem pollLoop_sorted (fwder : MachineForwarder) (ws : List World) (s s' : PollState)
    (hs : s.forwardedPorts.Sorted stringLE) (h : pollLoop fwder ws s = .looping s') :
    s'.forwardedPorts.Sorted stringLE := by
  induction ws generalizing s with
  | nil => simp only [pollLoop, Outcome.looping.injEq] at h; subst h; exact hs
  | cons w ws ih =>
    unfold pollLoop at h
    cases hc : pollCycle fwder w s with
    | looping s1 =>
      rw [hc] at h
      refine ih s1 ?_ h
      rcases pollCycle_looping fwder w s s1 hc with ⟨h1, _⟩ | ⟨_, cs, h1⟩ | ⟨_, h1⟩
      · rw [h1]; exact hs
      · rw [(newForwardedPorts_some h1).2]; exact sortStrings_sorted _
      · rw [h1]; exact hs
    | returned tr => rw [hc] at h; cases h
    | panicked tr => rw [hc] at h; cases h

/-- For a forwarder whose `SSHCmd` is nil, every pass leaves all live processes
running and adds one for each call of `Forward`. -/
theorem pollCycle_nil_live (fwder : MachineForwarder) (w : World) (s : PollState)
    (h : fwder.SSHCmd = none) :
    (live (pollCycle fwder w s).trace).length + (forwardCalls s.trace).length
      = (live s.trace).length + (forwardCalls (pollCycle fwder w s).trace).length := by
  have hI : live (InspectAll fwder w s.trace).2 = live s.trace ∧
      forwardCalls (InspectAll fwder w s.trace).2 = forwardCalls s.trace := by
    unfold InspectAll ListContainers
    cases hps : w.ps with
    | error e => exact ⟨by simp [live_append, liveStep], by simp [forwardCalls]⟩
    | ok out =>
      by_cases hids : (Fields out).length = 0
      · simp only [hids, if_true]
        exact ⟨by simp [live_append, liveStep], by simp [forwardCalls]⟩
      · simp only [hids, if_false]
        cases hin : w.inspect <;>
          exact ⟨by simp [live_append, liveStep], by simp [forwardCalls]⟩
  have hq : ∀ e : Event, e = Event.interrupt ∨ e = Event.sleep →
      ∀ t : List Event, live (t ++ [e]) = live t ∧ forwardCalls (t ++ [e]) = forwardCalls t := by
    intro e he t
    rcases he with rfl | rfl <;> exact ⟨by simp [live_append, liveStep], by simp [forwardCalls]⟩
  have hF : ∀ cand, (live (Forward fwder w cand (InspectAll fwder w s.trace).2).2.2).length
        = (live s.trace).length + 1 ∧
      (forwardCalls (Forward fwder w cand (InspectAll fwder w s.trace).2).2.2).length
        = (forwardCalls s.trace).length + 1 := by
    intro cand
    rw [Forward_of_nil fwder w cand _ h]
    simp only
    rw [live_append, forwardCalls_append, hI.1, hI.2]
    simp [liveStep, forwardCalls]
  rcases pollCycle_shape fwder w s with hs | hs | hs | ⟨cand, hs | hs⟩ <;> rw [hs]
  · rw [hI.1, hI.2]
  · rw [(hq _ (Or.inl rfl) _).1, (hq _ (Or.inl rfl) _).2, hI.1, hI.2]
  · rw [(hq _ (Or.inr rfl) _).1, (hq _ (Or.inr rfl) _).2, hI.1, hI.2]
  · rw [(hq _ (Or.inl rfl) _).1, (hq _ (Or.inl rfl) _).2, (hF cand).1, (hF cand).2]; omega
  · rw [(hq _ (Or.inr rfl) _).1, (hq _ (Or.inr rfl) _).2, (hF cand).1, (hF cand).2]; omega

theorem pollLoop_nil_live (fwder : MachineForwarder) (ws : List World) (s : PollState)
    (h : fwder.SSHCmd = none) :
    (live (pollLoop fwder ws s).trace).length + (forwardCalls s.trace).length
      = (live s.trace).length + (forwardCalls (pollLoop fwder ws s).trace).length := by
  induction ws generalizing s with
  | nil => simp only [pollLoop, Outcome.trace]
  | cons w ws ih =>
    have hc := pollCycle_nil_live fwder w s h
    unfold pollLoop
    cases hp : pollCycle fwder w s with
    | looping s1 =>
      rw [hp] at hc
      simp only [Outcome.trace] at hc
      have := ih s1
      simp only
      omega
    | returned tr => rw [hp] at hc; exact hc
    | panicked tr => rw [hp] at hc; exact hc

/-- From a forwarder whose `SSHCmd` is nil, as `NewMachineForwarder` builds it, `Poll`
never kills a tunnel process: after any number of passes, under any answers of the
outside world, as many processes are live as there were calls of `Forward`. -/
theorem Poll_nil_live (fwder : MachineForwarder) (w0 : World) (ws : List World)
    (h : fwder.SSHCmd = none) :
    (live (Poll fwder w0 ws).trace).length = (forwardCalls (Poll fwder w0 ws).trace).length := by
  have hF := Forward_of_nil fwder w0 [] [] h
  unfold Poll
  simp only
  rcases hFe : Forward fwder w0 [] [] with ⟨f, e, tr⟩
  rw [hFe] at hF
  simp only [Prod.mk.injEq] at hF
  obtain ⟨rfl, rfl⟩ := hF
  simp only
  have := pollLoop_nil_live fwder ws
    { forwardedPorts := [], changed := true, trace := [] ++ [Event.forward [],
        Event.run { serial := ([] : List Event).length + 1, name := fwder.MachineBinary,
                    arg := forwardArgs fwder.VMName [] }] } h
  simp only [List.nil_append] at this ⊢
  have h1 : (live [Event.forward [],
      Event.run { serial := ([] : List Event).length + 1, name := fwder.MachineBinary,
                  arg := forwardArgs fwder.VMName [] }]).length = 1 := by
    simp [live, liveStep]
  have h2 : (forwardCalls [Event.forward [],
      Event.run { serial := ([] : List Event).length + 1, name := fwder.MachineBinary,
                  arg := forwardArgs fwder.VMName [] }]).length = 1 := by
    simp [forwardCalls]
  omega

/-! ## The claims -/

/-- C1, the code at the failing input: from `NewMachineForwarder`, the baseline
`Forward([])` and then scenario B.  The second call of `Forward` launches a second
tunnel process and nothing is killed in between: both processes are live.  `Forward`
stores the new process in its own copy of the receiver, so the forwarder on which
`Poll` calls `Forward` still has a nil `SSHCmd`. -/
theorem second_tunnel_without_kill :
    (Poll (NewMachineForwarder "vm") worldEmpty [worldOf scenarioB]).trace =
      [Event.forward [],
       Event.run tunnelBaseline,
       Event.output "docker-machine" ["ssh", "vm", "docker", "ps", "-aq"],
       Event.output "docker-machine" ["ssh", "vm", "docker", "inspect", "4f2a"],
       Event.forward ["8080"],
       Event.run tunnel8080,
       Event.sleep] ∧
    live (Poll (NewMachineForwarder "vm") worldEmpty [worldOf scenarioB]).trace
      = [tunnelBaseline, tunnel8080] ∧
    (Forward (NewMachineForwarder "vm") worldEmpty [] []).1.SSHCmd = some tunnelBaseline ∧
    (NewMachineForwarder "vm").SSHCmd = none :=
  ⟨by decide, by decide, by decide, by decide⟩

/-- C2: whenever a pass of the loop computes a candidate from the decoded containers
(it does so unless a container pointer is nil), a string `p` occurs in the candidate
if and only if some binding of some port of some container has `HostPort = p` and a
`HostIp` equal to `"127.0.0.1"` or `"0.0.0.0"`. -/
theorem candidate_mem_iff (cs : List (Option Container)) :
    (none ∉ cs → ∃ cand, newForwardedPorts cs = some cand) ∧
    ∀ cand, newForwardedPorts cs = some cand → ∀ p : String,
      (p ∈ cand ↔
        ∃ c, some c ∈ cs ∧ ∃ port ∈ c.NetworkSettings.Ports, ∃ info ∈ port.2,
          info.HostPort = p ∧ (info.HostIp = "127.0.0.1" ∨ info.HostIp = "0.0.0.0")) := by
  refine ⟨fun hn => ⟨sortStrings (admittedPorts cs), ?_⟩, fun cand h p => ?_⟩
  · rw [newForwardedPorts_eq]; simp [hn]
  · obtain ⟨_, rfl⟩ := newForwardedPorts_some h
    rw [(sortStrings_perm _).mem_iff, mem_admittedPorts]

/-- The bindings `10.0.0.5:4000` and `127.0.0.1:3000` give exactly `["3000"]`, whose
only member comes from the loopback binding. -/
theorem candidate_mem_iff_witness :
    newForwardedPorts scenarioD = some ["3000"] ∧
    ∀ p : String, (p ∈ ["3000"] ↔
      ∃ c, some c ∈ scenarioD ∧ ∃ port ∈ c.NetworkSettings.Ports, ∃ info ∈ port.2,
        info.HostPort = p ∧ (info.HostIp = "127.0.0.1" ∨ info.HostIp = "0.0.0.0")) :=
  ⟨by decide, (candidate_mem_iff scenarioD).2 ["3000"] (by decide)⟩

/-- C3: in every pass of the loop that reaches the comparison with a candidate that
differs from the current truth (in length, or at some position), `Forward` is called
exactly once, with the candidate.  If that call returns no error, the pass ends at the
head of the loop with the candidate as the current truth; if it returns an error, the
pass sends one stop signal as its last action, `Poll` returns, and no later pass runs. -/
theorem changed_candidate_forwarded (fwder : MachineForwarder) (w : World) (s : PollState)
    (cs : List (Option Container)) (cand : List String)
    (hins : (InspectAll fwder w s.trace).1 = .ok (some (.containers cs)))
    (hcand : newForwardedPorts cs = some cand)
    (hdiff : s.forwardedPorts.length ≠ cand.length ∨
      ∃ i, i < s.forwardedPorts.length ∧ cand[i]? ≠ s.forwardedPorts[i]?) :
    forwardCalls (newEvents s (pollCycle fwder w s)) = [cand] ∧
    ((Forward fwder w cand (InspectAll fwder w s.trace).2).2.1 = none →
      ∃ tr, pollCycle fwder w s
        = .looping { forwardedPorts := cand, changed := false, trace := tr }) ∧
    ((Forward fwder w cand (InspectAll fwder w s.trace).2).2.1 ≠ none →
      (∃ tr, pollCycle fwder w s = .returned (tr ++ [Event.interrupt])) ∧
      interrupts (newEvents s (pollCycle fwder w s)) = 1 ∧
      ∀ ws, pollLoop fwder (w :: ws) s = pollCycle fwder w s) := by
  have hne : s.forwardedPorts ≠ cand := ne_of_differs hdiff
  have hch : (s.changed || decide (s.forwardedPorts ≠ cand)) = true := by simp [hne]
  obtain ⟨evs, htr, hfc, hcase⟩ := pollCycle_changed_trace fwder w s cs cand hins hcand hch
  have hnew := newEvents_append s _ evs htr
  refine ⟨by rw [hnew, hfc], fun hok => ?_, fun herr => ?_⟩
  · rcases hcase with ⟨_, _, h⟩ | ⟨h, _⟩
    · exact ⟨_, h⟩
    · exact absurd hok h
  · rcases hcase with ⟨h, _⟩ | ⟨_, hi, hlast, h⟩
    · exact absurd h herr
    · refine ⟨?_, by rw [hnew, hi], fun ws => pollLoop_stop fwder w ws s ?_⟩
      · obtain ⟨pre, hpre⟩ : ∃ pre, evs = pre ++ [Event.interrupt] := by
          rcases List.eq_nil_or_concat evs with hnil | ⟨pre, b, hb⟩
          · simp [hnil] at hlast
          · rw [hb, List.concat_eq_append] at hlast ⊢
            simp only [List.getLast?_append, List.getLast?_singleton, Option.or_some,
              Option.some.injEq] at hlast
            exact ⟨pre, by rw [hlast]⟩
        exact ⟨s.trace ++ pre, by rw [h, hpre, List.append_assoc]⟩
      · intro s' hs'
        rw [h] at hs'
        cases hs'

/-- Scenario B from the baseline: `Forward(["8080"])` is the one call of the pass, and
`["8080"]` becomes the current truth.  For a forwarder that holds a process whose
kill fails, the same pass calls `Forward(["8080"])` once and `Poll` returns. -/
theorem changed_candidate_forwarded_witness :
    (forwardCalls (newEvents stateBaseline
        (pollCycle (NewMachineForwarder "vm") (worldOf scenarioB) stateBaseline)) = [["8080"]] ∧
      ∃ tr, pollCycle (NewMachineForwarder "vm") (worldOf scenarioB) stateBaseline
        = .looping { forwardedPorts := ["8080"], changed := false, trace := tr }) ∧
    (forwardCalls (newEvents stateBaseline
        (pollCycle fwderHolding (worldKillFails scenarioB) stateBaseline)) = [["8080"]] ∧
      (∃ tr, pollCycle fwderHolding (worldKillFails scenarioB) stateBaseline
        = .returned (tr ++ [Event.interrupt])) ∧
      interrupts (newEvents stateBaseline
        (pollCycle fwderHolding (worldKillFails scenarioB) stateBaseline)) = 1 ∧
      ∀ ws, pollLoop fwderHolding (worldKillFails scenarioB :: ws) stateBaseline
        = pollCycle fwderHolding (worldKillFails scenarioB) stateBaseline) :=
  ⟨⟨(changed_candidate_forwarded (NewMachineForwarder "vm") (worldOf scenarioB) stateBaseline
        scenarioB ["8080"] rfl (by decide) (Or.inl (by decide))).1,
    (changed_candidate_forwarded (NewMachineForwarder "vm") (worldOf scenarioB) stateBaseline
        scenarioB ["8080"] rfl (by decide) (Or.inl (by decide))).2.1 (by decide)⟩,
   ⟨(changed_candidate_forwarded fwderHolding (worldKillFails scenarioB) stateBaseline
        scenarioB ["8080"] rfl (by decide) (Or.inl (by decide))).1,
    (changed_candidate_forwarded fwderHolding (worldKillFails scenarioB) stateBaseline
        scenarioB ["8080"] rfl (by decide) (Or.inl (by decide))).2.2 (by decide)⟩⟩

/-- C4, refuted as stated: in the first pass after the baseline `Forward([])`, a
payload with no admitted binding gives the candidate `[]`, equal to the current truth
`[]`, and yet `Forward([])` is called in that pass: the flag `changed` is still set. -/
theorem first_pass_forwards_again :
    Poll (NewMachineForwarder "vm") worldEmpty [] = .looping stateBaseline ∧
    newForwardedPorts noLocalPorts = some stateBaseline.forwardedPorts ∧
    forwardCalls (newEvents stateBaseline
      (pollCycle (NewMachineForwarder "vm") (worldOf noLocalPorts) stateBaseline)) = [[]] ∧
    forwardCalls (Poll (NewMachineForwarder "vm") worldEmpty [worldOf noLocalPorts]).trace
      = [[], []] :=
  ⟨by decide, by decide, by decide, by decide⟩

/-- C4, amended: in every pass entered with the flag `changed` cleared, if the
candidate equals the current truth then `Forward` is not called in that pass and the
truth is kept.  The flag is cleared at the head of the loop after every pass that got
a payload, and once cleared it is cleared at every later head of the loop.  And when
every pass finds zero containers, the baseline `Forward([])` is the only call of
`Forward` ever made. -/
theorem unchanged_candidate_not_forwarded :
    (∀ fwder w s cs, (InspectAll fwder w s.trace).1 = .ok (some (.containers cs)) →
      newForwardedPorts cs = some s.forwardedPorts → s.changed = false →
      forwardCalls (newEvents s (pollCycle fwder w s)) = [] ∧
      ∃ tr, pollCycle fwder w s
        = .looping { forwardedPorts := s.forwardedPorts, changed := false, trace := tr }) ∧
    (∀ fwder w s s1, pollCycle fwder w s = .looping s1 →
      (s.changed = false ∨ ∃ cs, (InspectAll fwder w s.trace).1 = .ok (some (.containers cs))) →
      s1.changed = false) ∧
    (∀ fwder w0 ws, (∀ w ∈ ws, ∃ out, w.ps = .ok out ∧ Fields out = []) →
      forwardCalls (Poll fwder w0 ws).trace = [[]]) := by
  refine ⟨fun fwder w s cs hins hcand hflag => ?_, fun fwder w s s1 hl hor => ?_,
    fun fwder w0 ws h => ?_⟩
  · obtain ⟨h1, _, h2⟩ := pollCycle_unchanged fwder w s cs hins hcand hflag
    exact ⟨h1, h2⟩
  · rcases hor with hflag | ⟨cs, hins⟩
    · rcases pollCycle_looping fwder w s s1 hl with ⟨_, h1⟩ | ⟨h1, _⟩ | ⟨h1, _⟩
      · rw [h1, hflag]
      · exact h1
      · exact h1
    · exact (pollCycle_payload_looping fwder w s s1 cs hins hl).2
  · obtain ⟨evs, htr, hf, _⟩ := Forward_trace fwder w0 [] []
    unfold Poll
    simp only
    rcases hF : Forward fwder w0 [] [] with ⟨f, e, tr⟩
    rw [hF] at htr
    simp only [List.nil_append] at htr
    subst htr
    cases e with
    | some err =>
      simp only [Outcome.trace]
      rw [forwardCalls_append, forwardCalls_forward_cons, hf, forwardCalls_interrupt]
      rfl
    | none =>
      simp only
      obtain ⟨tr, h1, h2⟩ := pollLoop_zero fwder ws
        { forwardedPorts := [], changed := true, trace := Event.forward [] :: evs } h
      rw [h1, Outcome.trace, h2]
      simp only
      rw [forwardCalls_forward_cons, hf]

/-- After the pass that forwarded 8080 the flag is cleared, and the same payload then
leads to no call of `Forward`; and with no container at all, three passes leave the
baseline call alone. -/
theorem unchanged_candidate_not_forwarded_witness :
    (forwardCalls (newEvents stateAfter8080
        (pollCycle (NewMachineForwarder "vm") (worldOf scenarioB) stateAfter8080)) = [] ∧
      ∃ tr, pollCycle (NewMachineForwarder "vm") (worldOf scenarioB) stateAfter8080
        = .looping { forwardedPorts := ["8080"], changed := false, trace := tr }) ∧
    (pollCycle (NewMachineForwarder "vm") (worldOf scenarioB) stateBaseline
        = .looping stateAfter8080 ∧ stateAfter8080.changed = false) ∧
    forwardCalls
      (Poll (NewMachineForwarder "vm") worldEmpty [worldEmpty, worldEmpty, worldEmpty]).trace
      = [[]] :=
  ⟨unchanged_candidate_not_forwarded.1 (NewMachineForwarder "vm") (worldOf scenarioB)
      stateAfter8080 scenarioB rfl (by decide) rfl,
   ⟨by decide,
    unchanged_candidate_not_forwarded.2.1 (NewMachineForwarder "vm") (worldOf scenarioB)
      stateBaseline stateAfter8080 (by decide) (Or.inr ⟨scenarioB, rfl⟩)⟩,
   unchanged_candidate_not_forwarded.2.2 (NewMachineForwarder "vm") worldEmpty
      [worldEmpty, worldEmpty, worldEmpty]
      (fun w hw => ⟨"", by
        simp only [List.mem_cons, List.mem_singleton, List.not_mem_nil, or_false, or_self] at hw
        subst hw
        exact ⟨rfl, by decide⟩⟩)⟩

/-- C5, refuted as stated: two consecutive passes that both come back to the head of
the loop without error and whose admitted host ports are the same, namely none, and
yet the second pass calls `Forward([])`.  The first pass finds no container
(`InspectAll` returns `nil, nil`) and is skipped; the second reads a payload with no
admitted binding.  This happens from the baseline, where the flag `changed` is still
set, and also after 8080 was forwarded, where the skipped pass has kept `["8080"]`. -/
theorem empty_pass_then_forward :
    (pollCycle (NewMachineForwarder "vm") worldEmpty stateBaseline
        = .looping stateAfterEmptyPass ∧
      (InspectAll (NewMachineForwarder "vm") worldEmpty stateBaseline.trace).1 = .ok none ∧
      collectPorts noLocalPorts [] = some [] ∧
      forwardCalls (newEvents stateAfterEmptyPass
        (pollCycle (NewMachineForwarder "vm") (worldOf noLocalPorts) stateAfterEmptyPass))
        = [[]] ∧
      ∃ tr, pollCycle (NewMachineForwarder "vm") (worldOf noLocalPorts) stateAfterEmptyPass
        = .looping { forwardedPorts := [], changed := false, trace := tr }) ∧
    (pollCycle (NewMachineForwarder "vm") worldEmpty stateAfter8080
        = .looping stateAfter8080Empty ∧
      (InspectAll (NewMachineForwarder "vm") worldEmpty stateAfter8080.trace).1 = .ok none ∧
      forwardCalls (newEvents stateAfter8080Empty
        (pollCycle (NewMachineForwarder "vm") (worldOf noLocalPorts) stateAfter8080Empty))
        = [[]] ∧
      ∃ tr, pollCycle (NewMachineForwarder "vm") (worldOf noLocalPorts) stateAfter8080Empty
        = .looping { forwardedPorts := [], changed := false, trace := tr }) ∧
    forwardCalls
      (Poll (NewMachineForwarder "vm") worldEmpty [worldEmpty, worldOf noLocalPorts]).trace
      = [[], []] ∧
    forwardCalls
      (Poll (NewMachineForwarder "vm") worldEmpty
        [worldOf scenarioB, worldEmpty, worldOf noLocalPorts]).trace
      = [[], ["8080"], []] :=
  ⟨⟨by decide, rfl, by decide, by decide, _, rfl⟩, ⟨by decide, rfl, by decide, _, rfl⟩,
    by decide, by decide⟩

/-- C5, amended: take two consecutive passes of the loop that both get a payload, the
first of which comes back to the head of the loop.  If the host ports collected from
the second payload are a rearrangement of those collected from the first (as they are
when the same payload is read with the port maps visited in another order), then the
comparison of the second pass reports no change, and the second pass makes no call of
`Forward` and comes back to the head of the loop with the current truth kept. -/
theorem rearranged_ports_not_forwarded (fwder : MachineForwarder) (w1 w2 : World)
    (s s1 : PollState) (cs1 cs2 : List (Option Container)) (raw1 raw2 : List String)
    (h1 : pollCycle fwder w1 s = .looping s1)
    (hp1 : (InspectAll fwder w1 s.trace).1 = .ok (some (.containers cs1)))
    (hp2 : (InspectAll fwder w2 s1.trace).1 = .ok (some (.containers cs2)))
    (hraw1 : collectPorts cs1 [] = some raw1)
    (hraw2 : collectPorts cs2 [] = some raw2)
    (hperm : raw2.Perm raw1) :
    newForwardedPorts cs2 = some (sortStrings raw2) ∧
    detectChange s1.forwardedPorts (sortStrings raw2) s1.changed = false ∧
    forwardCalls (newEvents s1 (pollCycle fwder w2 s1)) = [] ∧
    ∃ tr, pollCycle fwder w2 s1
      = .looping { forwardedPorts := s1.forwardedPorts, changed := false, trace := tr } := by
  obtain ⟨hc1, hflag1⟩ := pollCycle_payload_looping fwder w1 s s1 cs1 hp1 h1
  have e1 : s1.forwardedPorts = sortStrings raw1 := by
    simp only [newForwardedPorts, hraw1, Option.map_some', Option.some.injEq] at hc1
    exact hc1.symm
  have hc2 : newForwardedPorts cs2 = some (sortStrings raw2) := by
    simp only [newForwardedPorts, hraw2, Option.map_some']
  have heq : sortStrings raw2 = s1.forwardedPorts := by
    rw [e1]; exact sortStrings_eq_of_perm hperm
  refine ⟨hc2, ?_, ?_⟩
  · rw [detectChange_eq, hflag1, heq]
    simp
  · rw [heq] at hc2
    obtain ⟨hf, _, hl⟩ := pollCycle_unchanged fwder w2 s1 cs2 hp2 hc2 hflag1
    exact ⟨hf, hl⟩

/-- The payload `twoPorts` read twice, its port map visited in the two possible
orders: the second pass calls `Forward` not at all and keeps `["8080", "9090"]`. -/
theorem rearranged_ports_not_forwarded_witness :
    pollCycle (NewMachineForwarder "vm") (worldOf twoPorts) stateBaseline
      = .looping stateAfterTwoPorts ∧
    collectPorts twoPorts [] = some ["9090", "8080"] ∧
    collectPorts twoPortsReordered [] = some ["8080", "9090"] ∧
    newForwardedPorts twoPortsReordered = some (sortStrings ["8080", "9090"]) ∧
    detectChange stateAfterTwoPorts.forwardedPorts (sortStrings ["8080", "9090"])
      stateAfterTwoPorts.changed = false ∧
    forwardCalls (newEvents stateAfterTwoPorts
      (pollCycle (NewMachineForwarder "vm") (worldOf twoPortsReordered) stateAfterTwoPorts))
      = [] ∧
    ∃ tr, pollCycle (NewMachineForwarder "vm") (worldOf twoPortsReordered) stateAfterTwoPorts
      = .looping { forwardedPorts := stateAfterTwoPorts.forwardedPorts, changed := false,
                   trace := tr } :=
  ⟨by decide, by decide, by decide,
   rearranged_ports_not_forwarded (NewMachineForwarder "vm") (worldOf twoPorts)
    (worldOf twoPortsReordered) stateBaseline stateAfterTwoPorts
    twoPorts twoPortsReordered ["9090", "8080"] ["8080", "9090"] (by decide) rfl rfl
    (by decide) (by decide) (List.Perm.swap "9090" "8080" [])⟩

/-- C6, refuted as stated: once 8080 is forwarded, a pass in which the listing finds
no container (`InspectAll` returns `nil, nil`) calls `Forward` not at all, and the
current truth stays `["8080"]`. -/
theorem zero_containers_keeps_truth :
    Poll (NewMachineForwarder "vm") worldEmpty [worldOf scenarioB] = .looping stateAfter8080 ∧
    (InspectAll (NewMachineForwarder "vm") worldEmpty stateAfter8080.trace).1 = .ok none ∧
    forwardCalls (newEvents stateAfter8080
      (pollCycle (NewMachineForwarder "vm") worldEmpty stateAfter8080)) = [] ∧
    (∃ tr, pollCycle (NewMachineForwarder "vm") worldEmpty stateAfter8080
      = .looping { forwardedPorts := ["8080"], changed := false, trace := tr }) ∧
    forwardCalls
      (Poll (NewMachineForwarder "vm") worldEmpty [worldOf scenarioB, worldEmpty]).trace
      = [[], ["8080"]] :=
  ⟨by decide, rfl, by decide, ⟨_, rfl⟩, by decide⟩

/-- C6, amended: when the listing finds zero containers, `InspectAll` returns
`nil, nil` without running the inspect command; and every pass in which `InspectAll`
returns `nil, nil` goes straight back to the head of the loop: no candidate is
compared, `Forward` is not called, no stop signal is sent, there is no sleep, and the
current truth and the flag `changed` are what they were.  It is not an error path. -/
theorem zero_containers_skips_pass (fwder : MachineForwarder) (w : World) (s : PollState) :
    (∀ out, w.ps = .ok out → Fields out = [] →
      InspectAll fwder w s.trace = (.ok none, s.trace ++
        [Event.output fwder.MachineBinary ["ssh", fwder.VMName, "docker", "ps", "-aq"]])) ∧
    ((InspectAll fwder w s.trace).1 = .ok none →
      pollCycle fwder w s = .looping
        { forwardedPorts := s.forwardedPorts, changed := s.changed,
          trace := (InspectAll fwder w s.trace).2 } ∧
      forwardCalls (newEvents s (pollCycle fwder w s)) = [] ∧
      interrupts (newEvents s (pollCycle fwder w s)) = 0 ∧
      Event.sleep ∉ newEvents s (pollCycle fwder w s)) :=
  ⟨fun out hps hids => InspectAll_zero fwder w s.trace out hps hids,
   fun h => ⟨pollCycle_nil fwder w s h, pollCycle_nil_events fwder w s h⟩⟩

/-- With 8080 forwarded and no container left, the pass keeps `["8080"]`. -/
theorem zero_containers_skips_pass_witness :
    InspectAll (NewMachineForwarder "vm") worldEmpty stateAfter8080.trace
      = (.ok none, stateAfter8080.trace ++
          [Event.output "docker-machine" ["ssh", "vm", "docker", "ps", "-aq"]]) ∧
    pollCycle (NewMachineForwarder "vm") worldEmpty stateAfter8080 = .looping
      { forwardedPorts := ["8080"], changed := false,
        trace := (InspectAll (NewMachineForwarder "vm") worldEmpty stateAfter8080.trace).2 } ∧
    forwardCalls (newEvents stateAfter8080
      (pollCycle (NewMachineForwarder "vm") worldEmpty stateAfter8080)) = [] ∧
    interrupts (newEvents stateAfter8080
      (pollCycle (NewMachineForwarder "vm") worldEmpty stateAfter8080)) = 0 ∧
    Event.sleep ∉ newEvents stateAfter8080
      (pollCycle (NewMachineForwarder "vm") worldEmpty stateAfter8080) :=
  ⟨(zero_containers_skips_pass (NewMachineForwarder "vm") worldEmpty stateAfter8080).1
      "" rfl (by decide),
   (zero_containers_skips_pass (NewMachineForwarder "vm") worldEmpty stateAfter8080).2 rfl⟩

/-- C7, refuted as stated: the bindings `0.0.0.0:8080` and `127.0.0.1:8080` of one
container yield the candidate `["8080", "8080"]`, which has a duplicate, and `Poll`
passes that very sequence to `Forward` and keeps it as the current truth. -/
theorem candidate_duplicate :
    newForwardedPorts twice8080 = some ["8080", "8080"] ∧
    ¬ (["8080", "8080"] : List String).Nodup ∧
    forwardCalls (Poll (NewMachineForwarder "vm") worldEmpty [worldOf twice8080]).trace
      = [[], ["8080", "8080"]] ∧
    ∃ tr, Poll (NewMachineForwarder "vm") worldEmpty [worldOf twice8080]
      = .looping { forwardedPorts := ["8080", "8080"], changed := false, trace := tr } :=
  ⟨by decide, by decide, by decide, _, rfl⟩

/-- C7, amended: the candidate holds one entry per admitted binding.  The loops collect
the host ports of the admitted bindings, one after the other, and the candidate is a
rearrangement of them: `p` occurs in it as many times as there are admitted bindings
with `HostPort = p`, and it is free of duplicates exactly when no two admitted
bindings carry the same `HostPort`. -/
theorem candidate_count (cs : List (Option Container)) (cand : List String)
    (h : newForwardedPorts cs = some cand) :
    collectPorts cs [] = some ((admittedBindings cs).map Binding.HostPort) ∧
    (∀ p : String,
      cand.count p = (admittedBindings cs).countP (fun info => decide (info.HostPort = p))) ∧
    (cand.Nodup ↔ ((admittedBindings cs).map Binding.HostPort).Nodup) := by
  obtain ⟨hn, rfl⟩ := newForwardedPorts_some h
  refine ⟨?_, fun p => ?_, (sortStrings_perm _).nodup_iff⟩
  · rw [collectPorts_eq, if_neg hn, List.nil_append, admittedPorts]
  · rw [(sortStrings_perm _).count_eq, admittedPorts, List.count, List.countP_map]
    apply List.countP_congr
    intro info _
    simp only [Function.comp_apply, beq_iff_eq, decide_eq_true_eq]

/-- The candidate of `twice8080` holds `"8080"` twice, once per admitted binding. -/
theorem candidate_count_witness :
    newForwardedPorts twice8080 = some ["8080", "8080"] ∧
    collectPorts twice8080 [] = some ((admittedBindings twice8080).map Binding.HostPort) ∧
    (∀ p : String, (["8080", "8080"] : List String).count p
      = (admittedBindings twice8080).countP (fun info => decide (info.HostPort = p))) ∧
    ((["8080", "8080"] : List String).Nodup ↔
      ((admittedBindings twice8080).map Binding.HostPort).Nodup) :=
  ⟨by decide, candidate_count twice8080 ["8080", "8080"] (by decide)⟩

/-- C8: the candidate of a pass is the sorted rearrangement of the host ports that
the loops collected: it is in non-decreasing order and a permutation of them.  Hence
the current truth is sorted at the head of the loop after any number of passes, and on
sorted sequences the comparison of `Poll` reports no change exactly when the two hold
the same elements. -/
theorem candidate_sorted_perm :
    (∀ cs raw, collectPorts cs [] = some raw →
      ∃ cand, newForwardedPorts cs = some cand ∧ cand.Sorted stringLE ∧ cand.Perm raw) ∧
    (∀ fwder w0 ws s, Poll fwder w0 ws = .looping s → s.forwardedPorts.Sorted stringLE) ∧
    (∀ old new : List String, old.Sorted stringLE → new.Sorted stringLE →
      (detectChange old new false = false ↔ old.Perm new)) := by
  refine ⟨fun cs raw h => ⟨sortStrings raw, ?_, sortStrings_sorted raw, sortStrings_perm raw⟩,
    fun fwder w0 ws s h => ?_, fun old new ho hn => ?_⟩
  · simp [newForwardedPorts, h]
  · unfold Poll at h
    simp only at h
    split at h
    · cases h
    · exact pollLoop_sorted fwder ws _ s List.sorted_nil h
  · rw [detectChange_eq]
    simp only [Bool.false_or, ne_eq, decide_not, Bool.not_eq_false', decide_eq_true_eq]
    exact ⟨fun e => e ▸ List.Perm.refl _, fun p => List.eq_of_perm_of_sorted p ho hn⟩

/-- The ports 9090, 8080, 10 are collected in that order and sorted to 10, 8080, 9090;
after the pass that forwards them the current truth is sorted. -/
theorem candidate_sorted_perm_witness :
    collectPorts threePorts [] = some ["9090", "8080", "10"] ∧
    (∃ cand, newForwardedPorts threePorts = some cand ∧ cand.Sorted stringLE ∧
      cand.Perm ["9090", "8080", "10"]) ∧
    Poll (NewMachineForwarder "vm") worldEmpty [worldOf threePorts] = .looping
      { forwardedPorts := ["10", "8080", "9090"], changed := false,
        trace := (Poll (NewMachineForwarder "vm") worldEmpty [worldOf threePorts]).trace } ∧
    (["10", "8080", "9090"] : List String).Sorted stringLE ∧
    (detectChange ["10", "8080"] ["10", "8080"] false = false ↔
      (["10", "8080"] : List String).Perm ["10", "8080"]) :=
  ⟨by decide, candidate_sorted_perm.1 threePorts _ (by decide), by decide,
    candidate_sorted_perm.2.1 (NewMachineForwarder "vm") worldEmpty [worldOf threePorts] _
      (by decide : Poll (NewMachineForwarder "vm") worldEmpty [worldOf threePorts] = .looping
        { forwardedPorts := ["10", "8080", "9090"], changed := false,
          trace := (Poll (NewMachineForwarder "vm") worldEmpty [worldOf threePorts]).trace }),
    candidate_sorted_perm.2.2 ["10", "8080"] ["10", "8080"] (by decide) (by decide)⟩

/-- C9: for every VM name and every port list, the argument list that `Forward` builds
is the six fixed arguments, which forward the management port 2376, followed for each
port in order by `-L` and `port:127.0.0.1:port`; it has `6 + 2n` entries; and when
`Forward` returns no error, the last thing it did was to launch the machine binary
with exactly that argument list. -/
theorem forward_args (fwder : MachineForwarder) (ports : List String) :
    forwardArgs fwder.VMName ports =
      ["ssh", fwder.VMName, "-N", "-vvv", "-L", "2376:127.0.0.1:2376"] ++
        ports.flatMap (fun p => ["-L", p ++ ":127.0.0.1:" ++ p]) ∧
    (forwardArgs fwder.VMName ports).length = 6 + 2 * ports.length ∧
    ∀ w tr, (Forward fwder w ports tr).2.1 = none →
      ∃ serial, (Forward fwder w ports tr).2.2.getLast? =
        some (Event.run { serial := serial, name := fwder.MachineBinary, arg :=
          (["ssh", fwder.VMName, "-N", "-vvv", "-L", "2376:127.0.0.1:2376"] ++
            ports.flatMap (fun p => ["-L", p ++ ":127.0.0.1:" ++ p])) }) := by
  have hargs : forwardArgs fwder.VMName ports =
      ["ssh", fwder.VMName, "-N", "-vvv", "-L", "2376:127.0.0.1:2376"] ++
        ports.flatMap (fun p => ["-L", p ++ ":127.0.0.1:" ++ p]) := forwardArgs_foldl _ _
  refine ⟨hargs, ?_, fun w tr h => ?_⟩
  · rw [hargs]
    have : ∀ l : List String, (l.flatMap (fun p => ["-L", p ++ ":127.0.0.1:" ++ p])).length
        = 2 * l.length := by
      intro l
      induction l with
      | nil => rfl
      | cons p l ih => simp only [List.flatMap_cons, List.length_append, ih, List.length_cons,
          List.length_nil]; omega
    simp only [List.length_append, this, List.length_cons, List.length_nil]
  · rw [← hargs]
    unfold Forward Kill at h ⊢
    cases hc : fwder.SSHCmd with
    | none => exact ⟨tr.length + 1, by simp⟩
    | some cmd =>
      cases hk : w.kill with
      | none => exact ⟨tr.length + 2, by simp⟩
      | some e => simp [hc, hk] at h

/-- With the VM `vm` and the ports 8080 and 9090, a forwarder that holds no process
launches `docker-machine ssh vm -N -vvv -L 2376:... -L 8080:... -L 9090:...`. -/
theorem forward_args_witness :
    (Forward (NewMachineForwarder "vm") worldEmpty ["8080", "9090"] []).2.1 = none ∧
    ∃ serial, (Forward (NewMachineForwarder "vm") worldEmpty ["8080", "9090"] []).2.2.getLast? =
      some (Event.run { serial := serial, name := "docker-machine", arg :=
        ["ssh", "vm", "-N", "-vvv", "-L", "2376:127.0.0.1:2376",
         "-L", "8080:127.0.0.1:8080", "-L", "9090:127.0.0.1:9090"] }) :=
  ⟨by decide, (forward_args (NewMachineForwarder "vm") ["8080", "9090"]).2.2
    worldEmpty [] (by decide)⟩

/-- C10: in every pass in which `InspectAll` returns an error, the pass sends exactly
one stop signal and `Poll` returns: `Forward` is not called in that pass and no later
pass runs.  `InspectAll` returns the error of `ListContainers` whenever that fails,
having run the listing command only. -/
theorem inspect_error_stops (fwder : MachineForwarder) (w : World) (s : PollState) :
    (∀ err, (InspectAll fwder w s.trace).1 = .error err →
      (∃ tr, pollCycle fwder w s = .returned (tr ++ [Event.interrupt])) ∧
      interrupts (newEvents s (pollCycle fwder w s)) = 1 ∧
      forwardCalls (newEvents s (pollCycle fwder w s)) = [] ∧
      ∀ ws, pollLoop fwder (w :: ws) s = pollCycle fwder w s) ∧
    (∀ err, (ListContainers fwder w s.trace).1 = .error err →
      InspectAll fwder w s.trace = (.error err, s.trace ++
        [Event.output fwder.MachineBinary ["ssh", fwder.VMName, "docker", "ps", "-aq"]])) := by
  refine ⟨fun err herr => ?_, fun err herr => ?_⟩
  · have hc := pollCycle_error fwder w s err herr
    obtain ⟨e1, h1, hf1, hi1, _⟩ := InspectAll_trace fwder w s.trace
    have hnew : newEvents s (pollCycle fwder w s) = e1 ++ [Event.interrupt] :=
      newEvents_append s _ _ (by rw [hc, Outcome.trace, h1, List.append_assoc])
    refine ⟨⟨_, hc⟩, ?_, ?_, fun ws => pollLoop_stop fwder w ws s ?_⟩
    · rw [hnew, interrupts_append, hi1, interrupts_interrupt]
    · rw [hnew, forwardCalls_append, hf1, forwardCalls_interrupt]; rfl
    · intro s' hs'
      rw [hc] at hs'
      cases hs'
  · unfold ListContainers at herr
    unfold InspectAll ListContainers
    cases hps : w.ps with
    | error e =>
      rw [hps] at herr
      simp only [Except.error.injEq] at herr
      subst herr
      rfl
    | ok out => rw [hps] at herr; cases herr

/-- When the listing fails at the baseline, `Poll` sends one stop signal and returns
with no call of `Forward` in the pass, and the inspect command is not run; the same
holds of the pass when the inspect command fails. -/
theorem inspect_error_stops_witness :
    ((∃ tr, pollCycle (NewMachineForwarder "vm") worldPsFails stateBaseline
        = .returned (tr ++ [Event.interrupt])) ∧
      interrupts (newEvents stateBaseline
        (pollCycle (NewMachineForwarder "vm") worldPsFails stateBaseline)) = 1 ∧
      forwardCalls (newEvents stateBaseline
        (pollCycle (NewMachineForwarder "vm") worldPsFails stateBaseline)) = [] ∧
      ∀ ws, pollLoop (NewMachineForwarder "vm") (worldPsFails :: ws) stateBaseline
        = pollCycle (NewMachineForwarder "vm") worldPsFails stateBaseline) ∧
    InspectAll (NewMachineForwarder "vm") worldPsFails stateBaseline.trace
      = (.error "exit status 1", stateBaseline.trace ++
          [Event.output "docker-machine" ["ssh", "vm", "docker", "ps", "-aq"]]) ∧
    (∃ tr, pollCycle (NewMachineForwarder "vm") worldInspectFails stateBaseline
        = .returned (tr ++ [Event.interrupt])) :=
  ⟨(inspect_error_stops (NewMachineForwarder "vm") worldPsFails stateBaseline).1
      "exit status 1" rfl,
   (inspect_error_stops (NewMachineForwarder "vm") worldPsFails stateBaseline).2
      "exit status 1" rfl,
   ((inspect_error_stops (NewMachineForwarder "vm") worldInspectFails stateBaseline).1
      "exit status 1" rfl).1⟩

end Mcnforwarder
